import Mathlib

/-
Verification of the sandboxed Docker command-line code executor and of the
studio web routes package of this repository.

The sampled sources contain the executor's test suites
(tests/code_executors/test_docker_commandline_code_executor.py and
test_docker_executor_additional.py) but not the executor module
autogen_ext.code_executors.docker itself; the executor is therefore modelled
from the specification (spec.md sections 3, 4, 6, 7), with each such
definition marked "Modelled from the spec". The studio routes package
(autogenstudio/web/routes/) is present in the sources and is embedded
directly from its files.
-/

set_option maxRecDepth 20000

namespace Autogen

/-- One unit of source text plus a language tag submitted for execution
(autogen_core.code_executor.CodeBlock, spec section 3). -/
structure CodeBlock where
  language : String
  code : String
  deriving Repr, DecidableEq

/-- Modelled from the spec: the configuration surface of the Docker
command-line code executor (DockerCommandLineCodeExecutorConfig, spec
section 6); the implementation module is not part of the sampled sources,
only its tests are. Extra volumes are host path, bind path, mode triples;
extra hosts are hostname, address pairs. -/
structure DockerCommandLineCodeExecutorConfig where
  image : String
  container_name : Option String
  timeout : Nat
  work_dir : Option String
  bind_dir : Option String
  auto_remove : Bool
  stop_container : Bool
  functions_module : String
  extra_volumes : List (String × String × String)
  extra_hosts : List (String × String)
  init_command : Option String
  delete_tmp_files : Bool
  deriving Repr, DecidableEq

/-- Modelled from the spec: the executor object, holding its immutable
configuration and the running flag of its lifecycle state (spec section 3,
ExecutorState). -/
structure DockerCommandLineCodeExecutor where
  config : DockerCommandLineCodeExecutorConfig
  running : Bool
  deriving Repr, DecidableEq

/-- Modelled from the spec: constructing an executor from a configuration
validates the timeout (at least 1, spec sections 3 and 7) and yields a
not-yet-started executor; mirrors DockerCommandLineCodeExecutor._from_config. -/
def DockerCommandLineCodeExecutor.from_config
    (c : DockerCommandLineCodeExecutorConfig) :
    Except String DockerCommandLineCodeExecutor :=
  if c.timeout < 1 then
    Except.error "Timeout must be greater than or equal to 1."
  else
    Except.ok { config := c, running := false }

/-- Modelled from the spec: serializing an executor back to its plain
configuration; mirrors DockerCommandLineCodeExecutor._to_config. -/
def DockerCommandLineCodeExecutor.to_config
    (e : DockerCommandLineCodeExecutor) : DockerCommandLineCodeExecutorConfig :=
  e.config

/-- Modelled from the spec: start creates the container and sets the running
flag (spec section 4.1). The contract of section 4.1 nowhere forbids a later
restart, and the repository's test
test_docker_executor_multiple_start_stop_cycles exercises a second
start after a stop. -/
def DockerCommandLineCodeExecutor.start
    (e : DockerCommandLineCodeExecutor) : DockerCommandLineCodeExecutor :=
  { e with running := true }

/-- Modelled from the spec: stop halts the container and clears the running
flag; idempotent (spec section 4.1). -/
def DockerCommandLineCodeExecutor.stop
    (e : DockerCommandLineCodeExecutor) : DockerCommandLineCodeExecutor :=
  { e with running := false }

/-- A host-side absolute path, as its list of components. -/
abbrev HostPath := List String

/-- Split a character list on a separator character. -/
def splitChars (sep : Char) : List Char → List (List Char)
  | [] => [[]]
  | c :: rest =>
    let r := splitChars sep rest
    if c = sep then [] :: r
    else match r with
      | [] => [[c]]
      | g :: gs => (c :: g) :: gs

/-- Split a path string on slashes, dropping empty components. -/
def splitPath (s : String) : List String :=
  ((splitChars '/' s.data).filter (fun g => g ≠ [])).map (fun g => String.mk g)

/-- Resolve path components against a base directory, interpreting the
current-directory and parent-directory components. -/
def resolveComponents (base : HostPath) : List String → HostPath
  | [] => base
  | c :: rest =>
    if c = "." then resolveComponents base rest
    else if c = ".." then resolveComponents base.dropLast rest
    else resolveComponents (base ++ [c]) rest

/-- A name beginning with a slash is absolute. -/
def isAbsolute (name : String) : Bool :=
  match name.data with
  | c :: _ => c = '/'
  | [] => false

/-- Modelled from the spec: resolve a declared filename against the
bind-mount root (spec section 4.2 step 2); an absolute name ignores the
root, a relative one is joined to it. -/
def resolvePath (workdir : HostPath) (name : String) : HostPath :=
  if isAbsolute name then resolveComponents [] (splitPath name)
  else resolveComponents workdir (splitPath name)

/-- A resolved path is inside the workspace when the bind root is a prefix
of it (spec section 3, invariants). -/
def inWorkspace (workdir p : HostPath) : Bool :=
  List.isPrefixOf workdir p

/-- The characters of a code block's first line. -/
def firstLineChars (code : String) : List Char :=
  (splitChars '\n' code.data).headD []

/-- Drop leading spaces of a character list. -/
def dropSpaces : List Char → List Char
  | [] => []
  | c :: rest => if c = ' ' then dropSpaces rest else c :: rest

/-- Trim spaces at both ends of a character list. -/
def trimChars (cs : List Char) : List Char :=
  dropSpaces (dropSpaces cs.reverse).reverse

/-- The leading comment marker of the filename directive. -/
def directiveChars : List Char := "# filename:".data

/-- Modelled from the spec: the recognized leading filename comment directive
(spec section 4.2 step 1 and section 9: a small parser recognizing a leading
comment directive). -/
def getFileNameDirective (code : String) : Option String :=
  let l := firstLineChars code
  if directiveChars.isPrefixOf l then
    some (String.mk (trimChars (l.drop directiveChars.length)))
  else none

/-- Modelled from the spec: deterministic content hash used to synthesize a
file name when no directive is present (spec section 9). -/
def contentHash (s : String) : Nat :=
  s.data.foldl (fun a c => (a * 31 + c.toNat) % 1000000007) 7

/-- Modelled from the spec: language-appropriate extension table keyed by the
language tag (spec section 9). -/
def langExt (language : String) : String :=
  if language = "python" then "py"
  else if language = "bash" ∨ language = "sh" ∨ language = "shell" then "sh"
  else language

/-- Modelled from the spec: determine the target file of a block (spec
section 4.2 steps 1 and 2): a declared filename is resolved against the bind
root and rejected (none) when it escapes; otherwise a name is synthesized
from the content hash and the language extension. -/
def targetFileName (workdir : HostPath) (b : CodeBlock) : Option HostPath :=
  match getFileNameDirective b.code with
  | some name =>
    let p := resolvePath workdir name
    if inWorkspace workdir p then some p else none
  | none =>
    some (workdir ++
      ["tmp_code_" ++ toString (contentHash b.code) ++ "." ++ langExt b.language])

/-- The observable behaviour of running one code file inside the container:
wall-clock duration in seconds, exit code, emitted output, and the workspace
files the executed program writes (visible on the host side of the bind
mount). This is the container-runtime collaborator of spec section 6, left
abstract. -/
structure RunResult where
  duration : Nat
  exitCode : Nat
  output : String
  files : List HostPath

/-- The container runtime's behaviour per block index. -/
abbrev ContainerEnv := Nat → RunResult

/-- Remove a path from the host file set. -/
def removeFile (p : HostPath) (fs : List HostPath) : List HostPath :=
  fs.filter (fun q => q ≠ p)

/-- The evolving state of one batch: host file set, accumulated output, last
attempted code file, number of container exec calls made, current exit code,
and the files written so far by the executed programs themselves. -/
structure ExecState where
  fs : List HostPath
  output : String
  codeFile : Option HostPath
  calls : Nat
  exit : Nat
  progFiles : List HostPath
  deriving Repr, DecidableEq

/-- Delete the just-written code file when the delete-temp-files flag is set
(spec section 4.2 step 9). -/
def maybeDelete (cfg : DockerCommandLineCodeExecutorConfig) (p : HostPath)
    (fs : List HostPath) : List HostPath :=
  if cfg.delete_tmp_files then removeFile p fs else fs

/-- Modelled from the spec: the per-batch loop of execute_code_blocks (spec
section 4.2 steps 1 to 9). For block i: determine the target file (abort the
batch with exit code 1 and the workspace message when the declared name
escapes, making no container call); write the file; invoke the container
(counted in calls); a cancellation firing during block cancelAt aborts with
exit 1 and the cancellation message, the program's writes never appearing; a
duration beyond the timeout aborts with the timeout sentinel; otherwise the
block's exit code, output and file writes are recorded and a nonzero exit
stops the batch. The code file is deleted on every exit path when the
delete-temp-files flag is set. -/
def execBlocksAux (cfg : DockerCommandLineCodeExecutorConfig)
    (env : ContainerEnv) (cancelAt : Option Nat) (workdir : HostPath) :
    List CodeBlock → Nat → ExecState → ExecState
  | [], _, st => st
  | b :: rest, i, st =>
    match targetFileName workdir b with
    | none =>
      { st with exit := 1,
                output := st.output ++ "Filename is not in the workspace" }
    | some p =>
      if cancelAt = some i then
        { fs := maybeDelete cfg p (p :: st.fs)
          output := st.output ++ "Code execution was cancelled"
          codeFile := some p
          calls := st.calls + 1
          exit := 1
          progFiles := st.progFiles }
      else if cfg.timeout < (env i).duration then
        { fs := maybeDelete cfg p (p :: st.fs)
          output := st.output ++ "Timeout"
          codeFile := some p
          calls := st.calls + 1
          exit := 124
          progFiles := st.progFiles }
      else
        let st' : ExecState :=
          { fs := maybeDelete cfg p ((env i).files ++ p :: st.fs)
            output := st.output ++ (env i).output
            codeFile := some p
            calls := st.calls + 1
            exit := (env i).exitCode
            progFiles := st.progFiles ++ (env i).files }
        if (env i).exitCode = 0 then
          execBlocksAux cfg env cancelAt workdir rest (i + 1) st'
        else st'

/-- The initial batch state over a given host file set. -/
def initState (fs0 : List HostPath) : ExecState :=
  { fs := fs0, output := "", codeFile := none, calls := 0, exit := 0,
    progFiles := [] }

/-- Modelled from the spec: execute_code_blocks of
DockerCommandLineCodeExecutor (spec section 4.2): fails fast on an empty
batch with the exact message, fails fast when the executor is not running
(spec section 4.1, misuse before start), and otherwise runs the batch loop
over the resolved working directory, the abstract container runtime env, the
cancellation schedule cancelAt, and the initial host file set fs0. -/
def execute_code_blocks (ex : DockerCommandLineCodeExecutor)
    (workdir : HostPath) (blocks : List CodeBlock) (env : ContainerEnv)
    (cancelAt : Option Nat) (fs0 : List HostPath) : Except String ExecState :=
  if blocks = [] then Except.error "No code blocks to execute"
  else if ex.running = false then Except.error "Container is not running"
  else Except.ok (execBlocksAux ex.config env cancelAt workdir blocks 0 (initState fs0))

/-- The result shape returned to callers (exit code, combined output, last
code file), projected from the final batch state (spec section 3,
ExecutionResult). -/
structure ExecutionOutcome where
  exit_code : Nat
  output : String
  code_file : Option HostPath
  deriving Repr, DecidableEq

/-- Project the caller-visible execution result from a batch state. -/
def ExecState.result (st : ExecState) : ExecutionOutcome :=
  { exit_code := st.exit, output := st.output, code_file := st.codeFile }

/-- The string s contains sub as a substring. -/
def Contains (s sub : String) : Prop := ∃ t u, s = t ++ sub ++ u

/-- Concatenate a list of strings in order. -/
def concatAll : List String → String
  | [] => ""
  | s :: rest => s ++ concatAll rest

/-- The pieces appear, disjointly and in order, inside s. -/
def appearInOrder : List String → String → Prop
  | [], _ => True
  | piece :: rest, s => ∃ t u, s = t ++ piece ++ u ∧ appearInOrder rest u

/-- The per-block outputs the container runtime emits for a list of blocks
starting at index i. -/
def envOutputs (env : ContainerEnv) : Nat → List CodeBlock → List String
  | _, [] => []
  | i, _ :: rest => (env i).output :: envOutputs env (i + 1) rest

/-- Block b at index i runs normally to completion: its filename resolves
inside the workspace, the cancellation token does not fire during it, its
duration stays within the timeout, and it exits 0. -/
def blockOk (cfg : DockerCommandLineCodeExecutorConfig) (env : ContainerEnv)
    (cancelAt : Option Nat) (workdir : HostPath) (b : CodeBlock) (i : Nat) :
    Prop :=
  (targetFileName workdir b).isSome = true ∧ cancelAt ≠ some i ∧
    (env i).duration ≤ cfg.timeout ∧ (env i).exitCode = 0

instance (cfg : DockerCommandLineCodeExecutorConfig) (env : ContainerEnv)
    (cancelAt : Option Nat) (workdir : HostPath) (b : CodeBlock) (i : Nat) :
    Decidable (blockOk cfg env cancelAt workdir b i) := by
  unfold blockOk; infer_instance

/-- Every block of the list, starting at index i, runs normally. -/
def PrefixOk (cfg : DockerCommandLineCodeExecutorConfig) (env : ContainerEnv)
    (cancelAt : Option Nat) (workdir : HostPath) :
    List CodeBlock → Nat → Prop
  | [], _ => True
  | b :: rest, i =>
    blockOk cfg env cancelAt workdir b i ∧
      PrefixOk cfg env cancelAt workdir rest (i + 1)

instance instDecidablePrefixOk (cfg : DockerCommandLineCodeExecutorConfig)
    (env : ContainerEnv) (cancelAt : Option Nat) (workdir : HostPath) :
    (blocks : List CodeBlock) → (i : Nat) →
      Decidable (PrefixOk cfg env cancelAt workdir blocks i)
  | [], _ => Decidable.isTrue trivial
  | b :: rest, i =>
    have : Decidable (PrefixOk cfg env cancelAt workdir rest (i + 1)) :=
      instDecidablePrefixOk cfg env cancelAt workdir rest (i + 1)
    inferInstanceAs (Decidable (blockOk cfg env cancelAt workdir b i ∧
      PrefixOk cfg env cancelAt workdir rest (i + 1)))

/-- The state transformation of one normally-completing block. -/
def stepSuccess (cfg : DockerCommandLineCodeExecutorConfig)
    (env : ContainerEnv) (workdir : HostPath) (b : CodeBlock) (i : Nat)
    (st : ExecState) : ExecState :=
  match targetFileName workdir b with
  | none => st
  | some p =>
    { fs := maybeDelete cfg p ((env i).files ++ p :: st.fs)
      output := st.output ++ (env i).output
      codeFile := some p
      calls := st.calls + 1
      exit := (env i).exitCode
      progFiles := st.progFiles ++ (env i).files }

/-- Folding the success step over a list of blocks. -/
def foldSuccess (cfg : DockerCommandLineCodeExecutorConfig)
    (env : ContainerEnv) (workdir : HostPath) :
    List CodeBlock → Nat → ExecState → ExecState
  | [], _, st => st
  | b :: rest, i, st =>
    foldSuccess cfg env workdir rest (i + 1) (stepSuccess cfg env workdir b i st)

/-- The in-workspace target paths of the blocks of a batch. -/
def targetPaths (workdir : HostPath) : List CodeBlock → List HostPath
  | [] => []
  | b :: rest =>
    match targetFileName workdir b with
    | some p => p :: targetPaths workdir rest
    | none => targetPaths workdir rest

section Scenarios

/-- Working directory used by the concrete scenarios. -/
def demoWorkdir : HostPath := ["workspace"]

/-- The first python block of test_execute_code (no filename directive). -/
def helloBlock : CodeBlock :=
  { language := "python", code := "import sys; print(\"hello world!\")" }

/-- The second python block of test_execute_code. -/
def numBlock : CodeBlock :=
  { language := "python", code := "a = 100 + 100; print(a)" }

/-- The escaping block of test_invalid_relative_path: its directive names an
absolute path outside the workspace. -/
def escapeBlock : CodeBlock :=
  { language := "python",
    code := "# filename: /tmp/test.py\n\nprint(\"hello world\")\n" }

/-- The in-workspace relative directive block of test_valid_relative_path. -/
def relBlock : CodeBlock :=
  { language := "python",
    code := "# filename: test.py\n\nprint(\"hello world\")\n" }

/-- The sleeping block of test_commandline_code_executor_timeout. -/
def sleepBlock : CodeBlock :=
  { language := "python",
    code := "import time; time.sleep(10); print(\"hello world!\")" }

/-- The block of test_commandline_code_executor_cancellation: it sleeps and
would then write hello.txt into the workspace. -/
def sleepWriteBlock : CodeBlock :=
  { language := "python",
    code := "import time\ntime.sleep(10)\nwith open(\"hello.txt\", \"w\") as f:\n    f.write(\"hello world!\")\n" }

/-- A failing block (raise ValueError) as in
test_docker_executor_error_handling_for_invalid_code. -/
def failBlock : CodeBlock :=
  { language := "python", code := "raise ValueError(\"test error\")" }

/-- A baseline executor configuration with the constructor's defaults. -/
def demoConfig : DockerCommandLineCodeExecutorConfig :=
  { image := "python:3-slim", container_name := none, timeout := 60,
    work_dir := some "/workspace", bind_dir := none, auto_remove := true,
    stop_container := true, functions_module := "functions",
    extra_volumes := [], extra_hosts := [], init_command := none,
    delete_tmp_files := false }

/-- The started demo executor (default configuration). -/
def demoExecutor : DockerCommandLineCodeExecutor :=
  { config := demoConfig, running := true }

/-- The started demo executor with the delete-temp-files flag set. -/
def demoExecutorDel : DockerCommandLineCodeExecutor :=
  { config := { demoConfig with delete_tmp_files := true }, running := true }

/-- The started demo executor with timeout 1, as in the timeout test. -/
def demoExecutorT1 : DockerCommandLineCodeExecutor :=
  { config := { demoConfig with timeout := 1 }, running := true }

/-- Container behaviour of the two-block success scenario: the first block
prints hello world, the second prints 200. -/
def demoEnv : ContainerEnv := fun i =>
  if i = 0 then
    { duration := 1, exitCode := 0, output := "hello world!\n", files := [] }
  else
    { duration := 1, exitCode := 0, output := "200\n", files := [] }

/-- Container behaviour where the second block fails with exit code 1. -/
def demoEnvFail : ContainerEnv := fun i =>
  if i = 0 then
    { duration := 1, exitCode := 0, output := "hello world!\n", files := [] }
  else
    { duration := 1, exitCode := 1, output := "ValueError: test error\n",
      files := [] }

/-- Container behaviour of the sleeping block: it would run for 10 seconds
and, if allowed to finish, write hello.txt into the workspace. -/
def demoEnvSleep : ContainerEnv := fun _ =>
  { duration := 10, exitCode := 0, output := "",
    files := [["workspace", "hello.txt"]] }

/-- The synthesized target path of the cancellation scenario's block. -/
def sleepWritePath : HostPath :=
  (targetFileName demoWorkdir sleepWriteBlock).getD []

/-- The concrete configuration of
test_docker_executor_config_serialization_roundtrip. -/
def testRoundtripConfig : DockerCommandLineCodeExecutorConfig :=
  { image := "python:3.11-slim"
    container_name := some "test-container"
    timeout := 90
    work_dir := some "/tmp/test"
    bind_dir := some "/tmp/bind"
    auto_remove := false
    stop_container := false
    functions_module := "custom_functions"
    extra_volumes := [("/host/path", "/container/path", "ro")]
    extra_hosts := [("test.example.com", "192.168.1.1")]
    init_command := some "echo initialization"
    delete_tmp_files := true }

/-- The executor built over the round-trip test configuration. -/
def testRoundtripExecutor : DockerCommandLineCodeExecutor :=
  { config := testRoundtripConfig, running := false }

end Scenarios

section RoutesPackage

/-- The list assigned to the name starting and ending in double underscores,
spelled all, in autogenstudio/web/routes/the package initializer, embedded
from the source file. -/
def routes_all : List String :=
  ["gallery", "mcp", "runs", "sessions", "settingsroute", "teams",
   "validation", "ws", "analytics", "export", "streaming"]

/-- The module names the routes package initializer imports with
"from . import", embedded from the source file. -/
def routesImportedModules : List String :=
  ["gallery", "mcp", "runs", "sessions", "settingsroute", "teams",
   "validation", "ws", "analytics", "export", "streaming"]

/-- The route module source files present under autogenstudio/web/routes/ in
the sampled tree besides the initializer; each defines an APIRouter named
router with live endpoints. -/
def routesSourceModules : List String := ["analytics", "export", "streaming"]

/-- The module names test_removed_routes.py and test_routes_init.py assert
to be removed, not importable, and absent from the package's exports. -/
def removedRouteModules : List String := ["analytics", "export", "streaming"]

end RoutesPackage

section Lemmas

variable {cfg : DockerCommandLineCodeExecutorConfig} {env : ContainerEnv}
variable {cancelAt : Option Nat} {workdir : HostPath}
variable {b : CodeBlock} {rest : List CodeBlock} {i : Nat} {st : ExecState}

theorem mem_removeFile {q p : HostPath} {fs : List HostPath} :
    q ∈ removeFile p fs ↔ q ∈ fs ∧ q ≠ p := by
  simp [removeFile]

theorem execBlocksAux_cons_ok (h : blockOk cfg env cancelAt workdir b i) :
    execBlocksAux cfg env cancelAt workdir (b :: rest) i st =
      execBlocksAux cfg env cancelAt workdir rest (i + 1)
        (stepSuccess cfg env workdir b i st) := by
  obtain ⟨h1, h2, h3, h4⟩ := h
  obtain ⟨p, hp⟩ := Option.isSome_iff_exists.mp h1
  simp [execBlocksAux, stepSuccess, hp, h2, Nat.not_lt.mpr h3, h4]

theorem execBlocksAux_cons_escape (h : targetFileName workdir b = none) :
    execBlocksAux cfg env cancelAt workdir (b :: rest) i st =
      { st with exit := 1,
                output := st.output ++ "Filename is not in the workspace" } := by
  simp [execBlocksAux, h]

theorem execBlocksAux_cons_cancel {p : HostPath}
    (hp : targetFileName workdir b = some p) (hc : cancelAt = some i) :
    execBlocksAux cfg env cancelAt workdir (b :: rest) i st =
      { fs := maybeDelete cfg p (p :: st.fs)
        output := st.output ++ "Code execution was cancelled"
        codeFile := some p
        calls := st.calls + 1
        exit := 1
        progFiles := st.progFiles } := by
  simp [execBlocksAux, hp, hc]

theorem execBlocksAux_cons_timeout {p : HostPath}
    (hp : targetFileName workdir b = some p) (hc : cancelAt ≠ some i)
    (hd : cfg.timeout < (env i).duration) :
    execBlocksAux cfg env cancelAt workdir (b :: rest) i st =
      { fs := maybeDelete cfg p (p :: st.fs)
        output := st.output ++ "Timeout"
        codeFile := some p
        calls := st.calls + 1
        exit := 124
        progFiles := st.progFiles } := by
  simp [execBlocksAux, hp, hc, hd]

theorem execBlocksAux_cons_fail {p : HostPath}
    (hp : targetFileName workdir b = some p) (hc : cancelAt ≠ some i)
    (hd : (env i).duration ≤ cfg.timeout) (he : (env i).exitCode ≠ 0) :
    execBlocksAux cfg env cancelAt workdir (b :: rest) i st =
      stepSuccess cfg env workdir b i st := by
  simp [execBlocksAux, stepSuccess, hp, hc, Nat.not_lt.mpr hd, he]

theorem execBlocksAux_append_ok (rest : List CodeBlock) :
    ∀ (pre : List CodeBlock) (i : Nat) (st : ExecState),
      PrefixOk cfg env cancelAt workdir pre i →
      execBlocksAux cfg env cancelAt workdir (pre ++ rest) i st =
        execBlocksAux cfg env cancelAt workdir rest (i + pre.length)
          (foldSuccess cfg env workdir pre i st)
  | [], i, st, _ => by simp [foldSuccess]
  | b :: pre, i, st, h => by
    obtain ⟨hb, hrest⟩ := h
    rw [List.cons_append, execBlocksAux_cons_ok hb,
      execBlocksAux_append_ok rest pre (i + 1) _ hrest]
    have hlen : i + 1 + pre.length = i + (b :: pre).length := by
      simp [Nat.add_comm, Nat.add_assoc, Nat.add_left_comm]
    rw [hlen]
    rfl

theorem foldSuccess_output :
    ∀ (pre : List CodeBlock) (i : Nat) (st : ExecState),
      PrefixOk cfg env cancelAt workdir pre i →
      (foldSuccess cfg env workdir pre i st).output =
        st.output ++ concatAll (envOutputs env i pre)
  | [], i, st, _ => by simp [foldSuccess, concatAll, envOutputs]
  | b :: pre, i, st, h => by
    obtain ⟨⟨h1, _, _, _⟩, hrest⟩ := h
    obtain ⟨p, hp⟩ := Option.isSome_iff_exists.mp h1
    rw [foldSuccess, foldSuccess_output pre (i + 1) _ hrest]
    simp [stepSuccess, hp, concatAll, envOutputs, String.append_assoc]

theorem foldSuccess_calls :
    ∀ (pre : List CodeBlock) (i : Nat) (st : ExecState),
      PrefixOk cfg env cancelAt workdir pre i →
      (foldSuccess cfg env workdir pre i st).calls = st.calls + pre.length
  | [], i, st, _ => by simp [foldSuccess]
  | b :: pre, i, st, h => by
    obtain ⟨⟨h1, _, _, _⟩, hrest⟩ := h
    obtain ⟨p, hp⟩ := Option.isSome_iff_exists.mp h1
    rw [foldSuccess, foldSuccess_calls pre (i + 1) _ hrest]
    simp [stepSuccess, hp, Nat.add_comm, Nat.add_assoc, Nat.add_left_comm]

theorem foldSuccess_exit :
    ∀ (pre : List CodeBlock) (i : Nat) (st : ExecState),
      PrefixOk cfg env cancelAt workdir pre i → pre ≠ [] →
      (foldSuccess cfg env workdir pre i st).exit = 0
  | [], _, _, _, hne => absurd rfl hne
  | b :: pre, i, st, h, _ => by
    obtain ⟨⟨h1, _, _, h4⟩, hrest⟩ := h
    obtain ⟨p, hp⟩ := Option.isSome_iff_exists.mp h1
    rcases pre with _ | ⟨b', pre⟩
    · rw [foldSuccess, foldSuccess]
      simp [stepSuccess, hp, h4]
    · exact foldSuccess_exit (b' :: pre) (i + 1) _ hrest (by simp)

theorem foldSuccess_codeFile :
    ∀ (pre : List CodeBlock) (i : Nat) (st : ExecState),
      PrefixOk cfg env cancelAt workdir pre i → pre ≠ [] →
      ∃ p, (foldSuccess cfg env workdir pre i st).codeFile = some p
  | [], _, _, _, hne => absurd rfl hne
  | b :: pre, i, st, h, _ => by
    obtain ⟨⟨h1, _, _, _⟩, hrest⟩ := h
    obtain ⟨p, hp⟩ := Option.isSome_iff_exists.mp h1
    rcases pre with _ | ⟨b', pre⟩
    · rw [foldSuccess, foldSuccess]
      exact ⟨p, by simp [stepSuccess, hp]⟩
    · exact foldSuccess_codeFile (b' :: pre) (i + 1) _ hrest (by simp)

theorem appearInOrder_concatAll :
    ∀ pieces : List String, appearInOrder pieces (concatAll pieces)
  | [] => trivial
  | piece :: pieces =>
    ⟨"", concatAll pieces, by simp [concatAll, String.append_assoc],
      appearInOrder_concatAll pieces⟩

theorem mem_maybeDelete_of {q p : HostPath} {fs : List HostPath}
    (hq : q ∈ fs) (hne : q ≠ p) : q ∈ maybeDelete cfg p fs := by
  unfold maybeDelete
  split
  · exact mem_removeFile.mpr ⟨hq, hne⟩
  · exact hq

theorem mem_of_mem_maybeDelete {q p : HostPath} {fs : List HostPath}
    (h : q ∈ maybeDelete cfg p fs) : q ∈ fs := by
  unfold maybeDelete at h
  split at h
  · exact (mem_removeFile.mp h).1
  · exact h

theorem not_mem_maybeDelete_self (hdel : cfg.delete_tmp_files = true)
    (p : HostPath) (fs : List HostPath) : p ∉ maybeDelete cfg p fs := by
  simp [maybeDelete, hdel, mem_removeFile]

theorem execBlocksAux_prog_mono :
    ∀ (blocks : List CodeBlock) (i : Nat) (st : ExecState),
      st.progFiles ⊆
        (execBlocksAux cfg env cancelAt workdir blocks i st).progFiles
  | [], _, _ => fun _ h => h
  | b :: rest, i, st => by
    rcases hp : targetFileName workdir b with _ | p
    · rw [execBlocksAux_cons_escape hp]
      exact fun _ h => h
    · by_cases hc : cancelAt = some i
      · rw [execBlocksAux_cons_cancel hp hc]
        exact fun _ h => h
      · by_cases hd : cfg.timeout < (env i).duration
        · rw [execBlocksAux_cons_timeout hp hc hd]
          exact fun _ h => h
        · by_cases he : (env i).exitCode = 0
          · rw [execBlocksAux_cons_ok ⟨by simp [hp], hc, Nat.not_lt.mp hd, he⟩]
            refine List.Subset.trans ?_ (execBlocksAux_prog_mono rest (i + 1) _)
            simp [stepSuccess, hp]
          · rw [execBlocksAux_cons_fail hp hc (Nat.not_lt.mp hd) he]
            simp [stepSuccess, hp]

theorem execBlocksAux_fs_mono :
    ∀ (blocks : List CodeBlock) (i : Nat) (st : ExecState) (q : HostPath),
      q ∉ targetPaths workdir blocks → q ∈ st.fs →
      q ∈ (execBlocksAux cfg env cancelAt workdir blocks i st).fs
  | [], _, _, _, _, hq => hq
  | b :: rest, i, st, q, hT, hq => by
    rcases hp : targetFileName workdir b with _ | p
    · rw [execBlocksAux_cons_escape hp]
      exact hq
    · have hTb : q ≠ p ∧ q ∉ targetPaths workdir rest := by
        have := hT
        simp [targetPaths, hp] at this
        exact ⟨this.1, this.2⟩
      by_cases hc : cancelAt = some i
      · rw [execBlocksAux_cons_cancel hp hc]
        exact mem_maybeDelete_of (List.mem_cons_of_mem _ hq) hTb.1
      · by_cases hd : cfg.timeout < (env i).duration
        · rw [execBlocksAux_cons_timeout hp hc hd]
          exact mem_maybeDelete_of (List.mem_cons_of_mem _ hq) hTb.1
        · have hstep : q ∈ (stepSuccess cfg env workdir b i st).fs := by
            simp only [stepSuccess, hp]
            exact mem_maybeDelete_of
              (List.mem_append_right _ (List.mem_cons_of_mem _ hq)) hTb.1
          by_cases he : (env i).exitCode = 0
          · rw [execBlocksAux_cons_ok ⟨by simp [hp], hc, Nat.not_lt.mp hd, he⟩]
            exact execBlocksAux_fs_mono rest (i + 1) _ q hTb.2 hstep
          · rw [execBlocksAux_cons_fail hp hc (Nat.not_lt.mp hd) he]
            exact hstep

theorem execBlocksAux_fs_source :
    ∀ (blocks : List CodeBlock) (i : Nat) (st : ExecState) (q : HostPath),
      q ∈ (execBlocksAux cfg env cancelAt workdir blocks i st).fs →
      q ∈ st.fs ∨
        q ∈ (execBlocksAux cfg env cancelAt workdir blocks i st).progFiles ∨
        q ∈ targetPaths workdir blocks
  | [], _, _, _, hq => Or.inl hq
  | b :: rest, i, st, q, hq => by
    rcases hp : targetFileName workdir b with _ | p
    · rw [execBlocksAux_cons_escape hp] at hq
      exact Or.inl hq
    · have hmemT : p ∈ targetPaths workdir (b :: rest) := by
        simp [targetPaths, hp]
      by_cases hc : cancelAt = some i
      · rw [execBlocksAux_cons_cancel hp hc] at hq
        have := mem_of_mem_maybeDelete hq
        rcases List.mem_cons.mp this with h | h
        · exact Or.inr (Or.inr (h ▸ hmemT))
        · exact Or.inl h
      · by_cases hd : cfg.timeout < (env i).duration
        · rw [execBlocksAux_cons_timeout hp hc hd] at hq
          have := mem_of_mem_maybeDelete hq
          rcases List.mem_cons.mp this with h | h
          · exact Or.inr (Or.inr (h ▸ hmemT))
          · exact Or.inl h
        · have hstepcase :
              ∀ st' : ExecState, st' = stepSuccess cfg env workdir b i st →
              q ∈ st'.fs →
              q ∈ st.fs ∨ q ∈ st'.progFiles ∨
                q ∈ targetPaths workdir (b :: rest) := by
            intro st' hst' hq'
            subst hst'
            simp only [stepSuccess, hp] at hq' ⊢
            have := mem_of_mem_maybeDelete hq'
            rcases List.mem_append.mp this with h | h
            · exact Or.inr (Or.inl (List.mem_append_right _ h))
            · rcases List.mem_cons.mp h with h' | h'
              · exact Or.inr (Or.inr (h' ▸ hmemT))
              · exact Or.inl h'
          by_cases he : (env i).exitCode = 0
          · rw [execBlocksAux_cons_ok ⟨by simp [hp], hc, Nat.not_lt.mp hd, he⟩] at hq ⊢
            rcases execBlocksAux_fs_source rest (i + 1) _ q hq with h | h | h
            · rcases hstepcase _ rfl h with h' | h' | h'
              · exact Or.inl h'
              · exact Or.inr (Or.inl (execBlocksAux_prog_mono rest (i + 1) _ h'))
              · exact Or.inr (Or.inr h')
            · exact Or.inr (Or.inl h)
            · exact Or.inr (Or.inr (by simp [targetPaths, hp]; exact Or.inr h))
          · rw [execBlocksAux_cons_fail hp hc (Nat.not_lt.mp hd) he] at hq ⊢
            exact hstepcase _ rfl hq

theorem execBlocksAux_prog_in_fs :
    ∀ (blocks : List CodeBlock) (i : Nat) (st : ExecState) (q : HostPath),
      q ∉ targetPaths workdir blocks →
      q ∈ (execBlocksAux cfg env cancelAt workdir blocks i st).progFiles →
      q ∈ st.progFiles ∨
        q ∈ (execBlocksAux cfg env cancelAt workdir blocks i st).fs
  | [], _, _, _, _, hq => Or.inl hq
  | b :: rest, i, st, q, hT, hq => by
    rcases hp : targetFileName workdir b with _ | p
    · rw [execBlocksAux_cons_escape hp] at hq
      exact Or.inl hq
    · have hTb : q ≠ p ∧ q ∉ targetPaths workdir rest := by
        have := hT
        simp [targetPaths, hp] at this
        exact ⟨this.1, this.2⟩
      by_cases hc : cancelAt = some i
      · rw [execBlocksAux_cons_cancel hp hc] at hq
        exact Or.inl hq
      · by_cases hd : cfg.timeout < (env i).duration
        · rw [execBlocksAux_cons_timeout hp hc hd] at hq
          exact Or.inl hq
        · by_cases he : (env i).exitCode = 0
          · rw [execBlocksAux_cons_ok ⟨by simp [hp], hc, Nat.not_lt.mp hd, he⟩] at hq ⊢
            rcases execBlocksAux_prog_in_fs rest (i + 1) _ q hTb.2 hq with h | h
            · simp only [stepSuccess, hp] at h
              rcases List.mem_append.mp h with h' | h'
              · exact Or.inl h'
              · refine Or.inr (execBlocksAux_fs_mono rest (i + 1) _ q hTb.2 ?_)
                simp only [stepSuccess, hp]
                exact mem_maybeDelete_of (List.mem_append_left _ h') hTb.1
            · exact Or.inr h
          · rw [execBlocksAux_cons_fail hp hc (Nat.not_lt.mp hd) he] at hq ⊢
            simp only [stepSuccess, hp] at hq ⊢
            rcases List.mem_append.mp hq with h | h
            · exact Or.inl h
            · exact Or.inr (mem_maybeDelete_of (List.mem_append_left _ h) hTb.1)

theorem execBlocksAux_codeFile_deleted (hdel : cfg.delete_tmp_files = true) :
    ∀ (blocks : List CodeBlock) (i : Nat) (st : ExecState),
      (∀ q, st.codeFile = some q → q ∉ st.fs) →
      ∀ q, (execBlocksAux cfg env cancelAt workdir blocks i st).codeFile = some q →
        q ∉ (execBlocksAux cfg env cancelAt workdir blocks i st).fs
  | [], _, _, hinv, q, hq => hinv q hq
  | b :: rest, i, st, hinv, q, hq => by
    rcases hp : targetFileName workdir b with _ | p
    · rw [execBlocksAux_cons_escape hp] at hq ⊢
      exact hinv q hq
    · by_cases hc : cancelAt = some i
      · rw [execBlocksAux_cons_cancel hp hc] at hq ⊢
        simp only at hq
        cases hq
        exact not_mem_maybeDelete_self hdel _ _
      · by_cases hd : cfg.timeout < (env i).duration
        · rw [execBlocksAux_cons_timeout hp hc hd] at hq ⊢
          simp only at hq
          cases hq
          exact not_mem_maybeDelete_self hdel _ _
        · have hstepinv : ∀ q',
              (stepSuccess cfg env workdir b i st).codeFile = some q' →
              q' ∉ (stepSuccess cfg env workdir b i st).fs := by
            intro q' hq'
            simp only [stepSuccess, hp] at hq' ⊢
            cases hq'
            exact not_mem_maybeDelete_self hdel _ _
          by_cases he : (env i).exitCode = 0
          · rw [execBlocksAux_cons_ok ⟨by simp [hp], hc, Nat.not_lt.mp hd, he⟩] at hq ⊢
            exact execBlocksAux_codeFile_deleted hdel rest (i + 1) _ hstepinv q hq
          · rw [execBlocksAux_cons_fail hp hc (Nat.not_lt.mp hd) he] at hq ⊢
            exact hstepinv q hq

theorem execBlocksAux_codeFile_persists (hdel : cfg.delete_tmp_files = false) :
    ∀ (blocks : List CodeBlock) (i : Nat) (st : ExecState),
      (∀ q, st.codeFile = some q → q ∈ st.fs) →
      ∀ q, (execBlocksAux cfg env cancelAt workdir blocks i st).codeFile = some q →
        q ∈ (execBlocksAux cfg env cancelAt workdir blocks i st).fs
  | [], _, _, hinv, q, hq => hinv q hq
  | b :: rest, i, st, hinv, q, hq => by
    have hnd : ∀ (p : HostPath) (fs : List HostPath), maybeDelete cfg p fs = fs := by
      intro p fs
      simp [maybeDelete, hdel]
    rcases hp : targetFileName workdir b with _ | p
    · rw [execBlocksAux_cons_escape hp] at hq ⊢
      exact hinv q hq
    · by_cases hc : cancelAt = some i
      · rw [execBlocksAux_cons_cancel hp hc] at hq ⊢
        simp only at hq
        cases hq
        simp [hnd]
      · by_cases hd : cfg.timeout < (env i).duration
        · rw [execBlocksAux_cons_timeout hp hc hd] at hq ⊢
          simp only at hq
          cases hq
          simp [hnd]
        · have hstepinv : ∀ q',
              (stepSuccess cfg env workdir b i st).codeFile = some q' →
              q' ∈ (stepSuccess cfg env workdir b i st).fs := by
            intro q' hq'
            simp only [stepSuccess, hp] at hq' ⊢
            cases hq'
            simp [hnd]
          by_cases he : (env i).exitCode = 0
          · rw [execBlocksAux_cons_ok ⟨by simp [hp], hc, Nat.not_lt.mp hd, he⟩] at hq ⊢
            refine execBlocksAux_codeFile_persists hdel rest (i + 1) _ ?_ q hq
            intro q' hq'
            exact hstepinv q' hq'
          · rw [execBlocksAux_cons_fail hp hc (Nat.not_lt.mp hd) he] at hq ⊢
            exact hstepinv q hq

theorem execBlocksAux_all_ok :
    ∀ (blocks : List CodeBlock) (i : Nat) (st : ExecState),
      PrefixOk cfg env cancelAt workdir blocks i →
      execBlocksAux cfg env cancelAt workdir blocks i st =
        foldSuccess cfg env workdir blocks i st := by
  intro blocks i st hok
  have h := execBlocksAux_append_ok [] blocks i st hok
  simpa [execBlocksAux] using h

end Lemmas


section Claims

/-- C7: for every executor whose configuration carries a valid timeout,
serializing with to_config and reconstructing with from_config is lossless:
the reconstruction succeeds and returns an executor with the identical
configuration record (hence identical image, container name, timeout, work
dir, bind dir, auto-remove, stop-container, functions module, extra volumes,
extra hosts, init command, and delete-tmp-files fields) whose running flag
is false, i.e. not yet started. -/
theorem config_roundtrip (e : DockerCommandLineCodeExecutor)
    (hval : 1 ≤ e.config.timeout) :
    DockerCommandLineCodeExecutor.from_config e.to_config =
      Except.ok { config := e.config, running := false } := by
  simp [DockerCommandLineCodeExecutor.from_config,
    DockerCommandLineCodeExecutor.to_config, Nat.not_lt.mpr hval]

/-- Witness for C7: the round-trip test's concrete configuration (timeout 90,
custom image, volumes, hosts, init command, delete flag) satisfies the
hypothesis and round-trips to itself with a not-started executor. -/
theorem config_roundtrip_witness :
    1 ≤ testRoundtripExecutor.config.timeout ∧
    DockerCommandLineCodeExecutor.from_config testRoundtripExecutor.to_config =
      Except.ok { config := testRoundtripConfig, running := false } :=
  ⟨by decide, config_roundtrip testRoundtripExecutor (by decide)⟩

/-- C9: the claim — matching the repository's own tests
test_removed_routes.py and test_routes_init.py — says the analytics, export
and streaming route modules are removed, not importable, and not exposed by
the routes package; the sampled routes package contradicts this: each of the
three names has a module source file present, is imported by the package
initializer, and is listed in the package's export list, so the import
succeeds and the package exposes the attribute. -/
theorem routes_removed_modules_still_exported :
    removedRouteModules = ["analytics", "export", "streaming"] ∧
    ("analytics" ∈ routesSourceModules ∧ "export" ∈ routesSourceModules ∧
      "streaming" ∈ routesSourceModules) ∧
    ("analytics" ∈ routesImportedModules ∧ "export" ∈ routesImportedModules ∧
      "streaming" ∈ routesImportedModules) ∧
    ("analytics" ∈ routes_all ∧ "export" ∈ routes_all ∧
      "streaming" ∈ routes_all) := by
  refine ⟨rfl, ⟨?_, ?_, ?_⟩, ⟨?_, ?_, ?_⟩, ⟨?_, ?_, ?_⟩⟩ <;> decide

/-- C1: for every running executor and non-empty batch in which every block
runs normally (filename resolves, no cancellation, within timeout, exit 0),
execute_code_blocks returns exit code 0, a non-null code_file, and output
equal to the in-order concatenation of the blocks' outputs — hence
containing each block's expected stdout, in order. -/
theorem execute_all_success (ex : DockerCommandLineCodeExecutor)
    (workdir : HostPath) (blocks : List CodeBlock) (env : ContainerEnv)
    (cancelAt : Option Nat) (fs0 : List HostPath)
    (hrun : ex.running = true) (hne : blocks ≠ [])
    (hok : PrefixOk ex.config env cancelAt workdir blocks 0) :
    ∃ st, execute_code_blocks ex workdir blocks env cancelAt fs0 =
        Except.ok st ∧
      st.exit = 0 ∧ (∃ p, st.codeFile = some p) ∧
      st.output = concatAll (envOutputs env 0 blocks) ∧
      appearInOrder (envOutputs env 0 blocks) st.output := by
  refine ⟨execBlocksAux ex.config env cancelAt workdir blocks 0 (initState fs0),
    by simp [execute_code_blocks, hne, hrun], ?_, ?_, ?_, ?_⟩
  · rw [execBlocksAux_all_ok blocks 0 _ hok]
    exact foldSuccess_exit blocks 0 _ hok hne
  · rw [execBlocksAux_all_ok blocks 0 _ hok]
    exact foldSuccess_codeFile blocks 0 _ hok hne
  · rw [execBlocksAux_all_ok blocks 0 _ hok,
      foldSuccess_output blocks 0 _ hok]
    simp [initState]
  · rw [execBlocksAux_all_ok blocks 0 _ hok,
      foldSuccess_output blocks 0 _ hok]
    simp only [initState]
    have h := appearInOrder_concatAll (envOutputs env 0 blocks)
    simpa using h

/-- Witness for C1: the two-block scenario of test_execute_code — the blocks
printing hello world and 200 — satisfies every hypothesis, yields exit code
0 with a non-null code file, and its output contains both expected strings. -/
theorem execute_all_success_witness :
    demoExecutor.running = true ∧
    ([helloBlock, numBlock] ≠ ([] : List CodeBlock)) ∧
    PrefixOk demoExecutor.config demoEnv none demoWorkdir
      [helloBlock, numBlock] 0 ∧
    ∃ st, execute_code_blocks demoExecutor demoWorkdir [helloBlock, numBlock]
        demoEnv none [] = Except.ok st ∧
      st.exit = 0 ∧ (∃ p, st.codeFile = some p) ∧
      Contains st.output "hello world!" ∧ Contains st.output "200" := by
  refine ⟨rfl, by decide, by decide, ?_⟩
  obtain ⟨st, h1, h2, h3, h4, _⟩ :=
    execute_all_success demoExecutor demoWorkdir [helloBlock, numBlock]
      demoEnv none [] rfl (by decide) (by decide)
  refine ⟨st, h1, h2, h3, ⟨"", "\n200\n", ?_⟩, ⟨"hello world!\n", "\n", ?_⟩⟩
  · rw [h4]; decide
  · rw [h4]; decide

/-- C2: for every batch whose blocks before bk all run normally and whose
block bk (the first failing one, at index pre.length) exits nonzero within
the timeout, the whole run equals the run of the batch truncated right after
bk — so the blocks after bk are never executed and leave no trace in the
returned state, host file set included — and the result carries bk's nonzero
exit code, the output accumulated so far, and exactly pre.length + 1
container calls. -/
theorem execute_stops_at_first_failure (ex : DockerCommandLineCodeExecutor)
    (workdir : HostPath) (pre : List CodeBlock) (bk : CodeBlock)
    (after : List CodeBlock) (env : ContainerEnv) (cancelAt : Option Nat)
    (fs0 : List HostPath) (pk : HostPath)
    (hrun : ex.running = true)
    (hok : PrefixOk ex.config env cancelAt workdir pre 0)
    (hp : targetFileName workdir bk = some pk)
    (hc : cancelAt ≠ some pre.length)
    (hd : (env pre.length).duration ≤ ex.config.timeout)
    (he : (env pre.length).exitCode ≠ 0) :
    execute_code_blocks ex workdir (pre ++ bk :: after) env cancelAt fs0 =
      execute_code_blocks ex workdir (pre ++ [bk]) env cancelAt fs0 ∧
    ∃ st, execute_code_blocks ex workdir (pre ++ bk :: after) env cancelAt
        fs0 = Except.ok st ∧
      st.exit = (env pre.length).exitCode ∧ st.exit ≠ 0 ∧
      st.output = concatAll (envOutputs env 0 pre) ++ (env pre.length).output ∧
      st.calls = pre.length + 1 := by
  have haux : ∀ after' : List CodeBlock,
      execBlocksAux ex.config env cancelAt workdir (pre ++ bk :: after') 0
        (initState fs0) =
        stepSuccess ex.config env workdir bk pre.length
          (foldSuccess ex.config env workdir pre 0 (initState fs0)) := by
    intro after'
    rw [execBlocksAux_append_ok _ pre 0 _ hok]
    simp only [Nat.zero_add]
    rw [execBlocksAux_cons_fail hp hc hd he]
  constructor
  · simp only [execute_code_blocks, hrun]
    have h1 : pre ++ bk :: after ≠ [] := by simp
    have h2 : pre ++ [bk] ≠ [] := by simp
    simp only [h1, h2, if_false, if_neg, Bool.true_eq_false]
    rw [haux after, haux []]
  · refine ⟨stepSuccess ex.config env workdir bk pre.length
      (foldSuccess ex.config env workdir pre 0 (initState fs0)), ?_, ?_, ?_, ?_, ?_⟩
    · simp only [execute_code_blocks, hrun]
      have h1 : pre ++ bk :: after ≠ [] := by simp
      simp only [h1, if_neg, Bool.true_eq_false, if_false]
      rw [haux after]
    · simp [stepSuccess, hp]
    · simp [stepSuccess, hp, he]
    · simp only [stepSuccess, hp]
      rw [foldSuccess_output pre 0 _ hok]
      simp [initState]
    · simp only [stepSuccess, hp]
      rw [foldSuccess_calls pre 0 _ hok]
      simp [initState]

/-- Witness for C2: the batch hello block, failing block, number block under
a runtime where the second block exits 1 satisfies every hypothesis; the run
equals the truncated two-block run, the exit code is 1, the output is the
hello output followed by the error output, and exactly two container calls
are made — the third block never runs. -/
theorem execute_stops_at_first_failure_witness :
    demoExecutor.running = true ∧
    PrefixOk demoExecutor.config demoEnvFail none demoWorkdir [helloBlock] 0 ∧
    (targetFileName demoWorkdir failBlock).isSome = true ∧
    (demoEnvFail 1).exitCode = 1 ∧
    execute_code_blocks demoExecutor demoWorkdir
        ([helloBlock] ++ failBlock :: [numBlock]) demoEnvFail none [] =
      execute_code_blocks demoExecutor demoWorkdir
        ([helloBlock] ++ [failBlock]) demoEnvFail none [] ∧
    ∃ st, execute_code_blocks demoExecutor demoWorkdir
        ([helloBlock] ++ failBlock :: [numBlock]) demoEnvFail none [] =
        Except.ok st ∧
      st.exit = 1 ∧ st.calls = 2 := by
  refine ⟨rfl, by decide, by decide, by decide, ?_⟩
  obtain ⟨heq, st, h1, h2, _, _, h5⟩ :=
    execute_stops_at_first_failure demoExecutor demoWorkdir [helloBlock]
      failBlock [numBlock] demoEnvFail none []
      ((targetFileName demoWorkdir failBlock).getD [])
      rfl (by decide) (by decide) (by decide) (by decide) (by decide)
  exact ⟨heq, st, h1, by rw [h2]; decide, by rw [h5]; rfl⟩

/-- C3 counterexample: in the two-block batch hello block then escape block,
the second block's directive resolves outside the workspace, yet the batch
makes one container call (for the first block), not zero — refuting the
claim's "zero container calls for that batch" as quantified over every block
of every batch. -/
theorem execute_escape_zero_calls_counterexample :
    targetFileName demoWorkdir escapeBlock = none ∧
    ∃ st, execute_code_blocks demoExecutor demoWorkdir
        [helloBlock, escapeBlock] demoEnv none [] = Except.ok st ∧
      st.calls = 1 ∧ st.exit = 1 ∧ ¬ st.calls = 0 := by
  refine ⟨by decide, _, rfl, by decide, by decide, by decide⟩

/-- C3 amended: when a block's declared filename resolves outside the
bind-mount root, execute_code_blocks makes no container call for that block
or any later block — in particular zero container calls when the offending
block is the batch's first — and returns (rather than raises) an execution
result with exit code exactly 1 and output containing the exact substring
"Filename is not in the workspace"; the run equals the run of the batch
truncated at the offending block. -/
theorem execute_escape_rejected (ex : DockerCommandLineCodeExecutor)
    (workdir : HostPath) (pre : List CodeBlock) (besc : CodeBlock)
    (after : List CodeBlock) (env : ContainerEnv) (cancelAt : Option Nat)
    (fs0 : List HostPath)
    (hrun : ex.running = true)
    (hok : PrefixOk ex.config env cancelAt workdir pre 0)
    (hesc : targetFileName workdir besc = none) :
    execute_code_blocks ex workdir (pre ++ besc :: after) env cancelAt fs0 =
      execute_code_blocks ex workdir (pre ++ [besc]) env cancelAt fs0 ∧
    ∃ st, execute_code_blocks ex workdir (pre ++ besc :: after) env cancelAt
        fs0 = Except.ok st ∧
      st.exit = 1 ∧
      Contains st.output "Filename is not in the workspace" ∧
      st.calls = pre.length ∧
      st.fs = (foldSuccess ex.config env workdir pre 0 (initState fs0)).fs := by
  have haux : ∀ after' : List CodeBlock,
      execBlocksAux ex.config env cancelAt workdir (pre ++ besc :: after') 0
        (initState fs0) =
        { foldSuccess ex.config env workdir pre 0 (initState fs0) with
            exit := 1,
            output := (foldSuccess ex.config env workdir pre 0
              (initState fs0)).output ++ "Filename is not in the workspace" } := by
    intro after'
    rw [execBlocksAux_append_ok _ pre 0 _ hok]
    rw [execBlocksAux_cons_escape hesc]
  constructor
  · simp only [execute_code_blocks, hrun]
    have h1 : pre ++ besc :: after ≠ [] := by simp
    have h2 : pre ++ [besc] ≠ [] := by simp
    simp only [h1, h2, if_neg, Bool.true_eq_false, if_false]
    rw [haux after, haux []]
  · refine ⟨{ foldSuccess ex.config env workdir pre 0 (initState fs0) with
        exit := 1,
        output := (foldSuccess ex.config env workdir pre 0
          (initState fs0)).output ++ "Filename is not in the workspace" },
      ?_, rfl, ?_, ?_, rfl⟩
    · simp only [execute_code_blocks, hrun]
      have h1 : pre ++ besc :: after ≠ [] := by simp
      simp only [h1, if_neg, Bool.true_eq_false, if_false]
      rw [haux after]
    · exact ⟨(foldSuccess ex.config env workdir pre 0 (initState fs0)).output,
        "", by simp⟩
    · simp only
      rw [foldSuccess_calls pre 0 _ hok]
      simp [initState]

/-- Witness for C3 (amended): the single-block batch of
test_invalid_relative_path — the escape block alone — satisfies every
hypothesis and yields exit code 1, the workspace message, and zero container
calls. -/
theorem execute_escape_rejected_witness :
    demoExecutor.running = true ∧
    targetFileName demoWorkdir escapeBlock = none ∧
    ∃ st, execute_code_blocks demoExecutor demoWorkdir
        ([] ++ escapeBlock :: []) demoEnv none [] = Except.ok st ∧
      st.exit = 1 ∧
      Contains st.output "Filename is not in the workspace" ∧
      st.calls = 0 := by
  refine ⟨rfl, by decide, ?_⟩
  obtain ⟨_, st, h1, h2, h3, h4, _⟩ :=
    execute_escape_rejected demoExecutor demoWorkdir [] escapeBlock []
      demoEnv none [] rfl trivial (by decide)
  exact ⟨st, h1, h2, h3, h4⟩

/-- C4: when the cancellation token fires during block bk (all earlier
blocks running normally), execute_code_blocks returns a result — it does not
raise — whose exit code is nonzero and whose output contains "Code execution
was cancelled", and a file that bk's program would have written (one not
otherwise present and distinct from the code file) does not exist on the
host side of the bind mount afterwards. -/
theorem execute_cancellation (ex : DockerCommandLineCodeExecutor)
    (workdir : HostPath) (pre : List CodeBlock) (bk : CodeBlock)
    (after : List CodeBlock) (env : ContainerEnv) (fs0 : List HostPath)
    (pk fileW : HostPath)
    (hrun : ex.running = true)
    (hok : PrefixOk ex.config env (some pre.length) workdir pre 0)
    (hp : targetFileName workdir bk = some pk)
    (_hw : fileW ∈ (env pre.length).files)
    (hfresh : fileW ∉ (foldSuccess ex.config env workdir pre 0
      (initState fs0)).fs)
    (hnotcode : fileW ≠ pk) :
    ∃ st, execute_code_blocks ex workdir (pre ++ bk :: after) env
        (some pre.length) fs0 = Except.ok st ∧
      st.exit ≠ 0 ∧
      Contains st.output "Code execution was cancelled" ∧
      fileW ∉ st.fs := by
  have haux :
      execBlocksAux ex.config env (some pre.length) workdir
        (pre ++ bk :: after) 0 (initState fs0) =
        { fs := maybeDelete ex.config pk (pk ::
            (foldSuccess ex.config env workdir pre 0 (initState fs0)).fs)
          output := (foldSuccess ex.config env workdir pre 0
            (initState fs0)).output ++ "Code execution was cancelled"
          codeFile := some pk
          calls := (foldSuccess ex.config env workdir pre 0
            (initState fs0)).calls + 1
          exit := 1
          progFiles := (foldSuccess ex.config env workdir pre 0
            (initState fs0)).progFiles } := by
    rw [execBlocksAux_append_ok _ pre 0 _ hok]
    simp only [Nat.zero_add]
    rw [execBlocksAux_cons_cancel hp rfl]
  refine ⟨execBlocksAux ex.config env (some pre.length) workdir
      (pre ++ bk :: after) 0 (initState fs0), ?_, ?_, ?_, ?_⟩
  · simp only [execute_code_blocks, hrun]
    have h1 : pre ++ bk :: after ≠ [] := by simp
    simp only [h1, if_neg, Bool.true_eq_false, if_false]
  · rw [haux]
    simp
  · rw [haux]
    exact ⟨(foldSuccess ex.config env workdir pre 0 (initState fs0)).output,
      "", by simp⟩
  · rw [haux]
    intro hmem
    have := mem_of_mem_maybeDelete hmem
    rcases List.mem_cons.mp this with h | h
    · exact hnotcode h
    · exact hfresh h

/-- Witness for C4: the cancellation test's scenario — the single sleeping
block that would write hello.txt, token firing during block 0 — satisfies
every hypothesis; the result has nonzero exit code, the cancellation
message, and the hello.txt path does not exist afterwards. -/
theorem execute_cancellation_witness :
    demoExecutor.running = true ∧
    targetFileName demoWorkdir sleepWriteBlock = some sleepWritePath ∧
    (["workspace", "hello.txt"] : HostPath) ∈ (demoEnvSleep 0).files ∧
    ∃ st, execute_code_blocks demoExecutor demoWorkdir
        ([] ++ sleepWriteBlock :: []) demoEnvSleep (some 0) [] =
        Except.ok st ∧
      st.exit ≠ 0 ∧
      Contains st.output "Code execution was cancelled" ∧
      (["workspace", "hello.txt"] : HostPath) ∉ st.fs := by
  refine ⟨rfl, by decide, by decide, ?_⟩
  obtain ⟨st, h1, h2, h3, h4⟩ :=
    execute_cancellation demoExecutor demoWorkdir [] sleepWriteBlock []
      demoEnvSleep [] sleepWritePath ["workspace", "hello.txt"]
      rfl trivial (by decide) (by decide) (by decide) (by decide)
  exact ⟨st, h1, h2, h3, h4⟩

/-- C5: when block bk's wall-clock duration exceeds the configured timeout
(all earlier blocks running normally and no cancellation), execute_code_blocks
returns a result — it never raises — with a nonzero exit code (the timeout
sentinel 124) and output containing the substring "Timeout", and no further
block of the batch is executed: the run equals the run of the batch
truncated right after bk, and exactly pre.length + 1 container calls are
made. -/
theorem execute_timeout (ex : DockerCommandLineCodeExecutor)
    (workdir : HostPath) (pre : List CodeBlock) (bk : CodeBlock)
    (after : List CodeBlock) (env : ContainerEnv) (cancelAt : Option Nat)
    (fs0 : List HostPath) (pk : HostPath)
    (hrun : ex.running = true)
    (hok : PrefixOk ex.config env cancelAt workdir pre 0)
    (hp : targetFileName workdir bk = some pk)
    (hc : cancelAt ≠ some pre.length)
    (hd : ex.config.timeout < (env pre.length).duration) :
    execute_code_blocks ex workdir (pre ++ bk :: after) env cancelAt fs0 =
      execute_code_blocks ex workdir (pre ++ [bk]) env cancelAt fs0 ∧
    ∃ st, execute_code_blocks ex workdir (pre ++ bk :: after) env cancelAt
        fs0 = Except.ok st ∧
      st.exit = 124 ∧ st.exit ≠ 0 ∧
      Contains st.output "Timeout" ∧
      st.calls = pre.length + 1 := by
  have haux : ∀ after' : List CodeBlock,
      execBlocksAux ex.config env cancelAt workdir (pre ++ bk :: after') 0
        (initState fs0) =
        { fs := maybeDelete ex.config pk (pk ::
            (foldSuccess ex.config env workdir pre 0 (initState fs0)).fs)
          output := (foldSuccess ex.config env workdir pre 0
            (initState fs0)).output ++ "Timeout"
          codeFile := some pk
          calls := (foldSuccess ex.config env workdir pre 0
            (initState fs0)).calls + 1
          exit := 124
          progFiles := (foldSuccess ex.config env workdir pre 0
            (initState fs0)).progFiles } := by
    intro after'
    rw [execBlocksAux_append_ok _ pre 0 _ hok]
    simp only [Nat.zero_add]
    rw [execBlocksAux_cons_timeout hp hc hd]
  constructor
  · simp only [execute_code_blocks, hrun]
    have h1 : pre ++ bk :: after ≠ [] := by simp
    have h2 : pre ++ [bk] ≠ [] := by simp
    simp only [h1, h2, if_neg, Bool.true_eq_false, if_false]
    rw [haux after, haux []]
  · refine ⟨execBlocksAux ex.config env cancelAt workdir
        (pre ++ bk :: after) 0 (initState fs0), ?_, ?_, ?_, ?_, ?_⟩
    · simp only [execute_code_blocks, hrun]
      have h1 : pre ++ bk :: after ≠ [] := by simp
      simp only [h1, if_neg, Bool.true_eq_false, if_false]
    · rw [haux after]
    · rw [haux after]
      simp
    · rw [haux after]
      exact ⟨(foldSuccess ex.config env workdir pre 0 (initState fs0)).output,
        "", by simp⟩
    · rw [haux after]
      simp only
      rw [foldSuccess_calls pre 0 _ hok]
      simp [initState]

/-- Witness for C5: the timeout test's scenario — the 10-second sleeping
block under an executor with timeout 1 — satisfies every hypothesis and
yields the nonzero timeout sentinel, output containing "Timeout", and one
container call. -/
theorem execute_timeout_witness :
    demoExecutorT1.running = true ∧
    demoExecutorT1.config.timeout < (demoEnvSleep 0).duration ∧
    ∃ st, execute_code_blocks demoExecutorT1 demoWorkdir
        ([] ++ sleepBlock :: []) demoEnvSleep none [] = Except.ok st ∧
      st.exit ≠ 0 ∧ Contains st.output "Timeout" ∧ st.calls = 1 := by
  refine ⟨rfl, by decide, ?_⟩
  obtain ⟨_, st, h1, _, h3, h4, h5⟩ :=
    execute_timeout demoExecutorT1 demoWorkdir [] sleepBlock []
      demoEnvSleep none []
      ((targetFileName demoWorkdir sleepBlock).getD [])
      rfl trivial (by decide) (by decide) (by decide)
  exact ⟨st, h1, h3, h4, h5⟩

/-- C6: for every running executor and non-empty batch, whatever the
container behaviour (success, nonzero exit, timeout via durations, or
cancellation via the token schedule): with delete_tmp_files true the
returned code_file path is absent from the final host file set; with
delete_tmp_files false (the default) it is present; and every path that is
not an executor-written code file is untouched — it is in the final file set
exactly when it pre-existed or was written by the executed code itself. -/
theorem execute_delete_tmp_files (ex : DockerCommandLineCodeExecutor)
    (workdir : HostPath) (blocks : List CodeBlock) (env : ContainerEnv)
    (cancelAt : Option Nat) (fs0 : List HostPath)
    (hrun : ex.running = true) (hne : blocks ≠ []) :
    ∃ st, execute_code_blocks ex workdir blocks env cancelAt fs0 =
        Except.ok st ∧
      (ex.config.delete_tmp_files = true →
        ∀ p, st.codeFile = some p → p ∉ st.fs) ∧
      (ex.config.delete_tmp_files = false →
        ∀ p, st.codeFile = some p → p ∈ st.fs) ∧
      (∀ q, q ∉ targetPaths workdir blocks →
        (q ∈ st.fs ↔ q ∈ fs0 ∨ q ∈ st.progFiles)) := by
  refine ⟨execBlocksAux ex.config env cancelAt workdir blocks 0
      (initState fs0),
    by simp [execute_code_blocks, hne, hrun], ?_, ?_, ?_⟩
  · intro hdel p hcf
    refine execBlocksAux_codeFile_deleted hdel blocks 0 _ ?_ p hcf
    intro q hq
    simp [initState] at hq
  · intro hdel p hcf
    refine execBlocksAux_codeFile_persists hdel blocks 0 _ ?_ p hcf
    intro q hq
    simp [initState] at hq
  · intro q hT
    constructor
    · intro hq
      rcases execBlocksAux_fs_source blocks 0 _ q hq with h | h | h
      · exact Or.inl h
      · exact Or.inr h
      · exact absurd h hT
    · rintro (h | h)
      · exact execBlocksAux_fs_mono blocks 0 _ q hT h
      · rcases execBlocksAux_prog_in_fs blocks 0 _ q hT h with h' | h'
        · simp [initState] at h'
        · exact h'

/-- Witness for C6: the single hello block run twice — once under the
executor with delete_tmp_files true, once under the default executor —
instantiates both directions: the code file is gone afterwards in the first
run and still present in the second. -/
theorem execute_delete_tmp_files_witness :
    demoExecutorDel.config.delete_tmp_files = true ∧
    demoExecutor.config.delete_tmp_files = false ∧
    (∃ st, execute_code_blocks demoExecutorDel demoWorkdir [helloBlock]
        demoEnv none [] = Except.ok st ∧
      ∀ p, st.codeFile = some p → p ∉ st.fs) ∧
    (∃ st, execute_code_blocks demoExecutor demoWorkdir [helloBlock]
        demoEnv none [] = Except.ok st ∧
      ∀ p, st.codeFile = some p → p ∈ st.fs) := by
  refine ⟨rfl, rfl, ?_, ?_⟩
  · obtain ⟨st, h1, h2, _, _⟩ :=
      execute_delete_tmp_files demoExecutorDel demoWorkdir [helloBlock]
        demoEnv none [] rfl (by decide)
    exact ⟨st, h1, h2 rfl⟩
  · obtain ⟨st, h1, _, h3, _⟩ :=
      execute_delete_tmp_files demoExecutor demoWorkdir [helloBlock]
        demoEnv none [] rfl (by decide)
    exact ⟨st, h1, h3 rfl⟩

theorem resolveComponents_clean :
    ∀ (comps : List String) (base : HostPath),
      (∀ c ∈ comps, c ≠ "." ∧ c ≠ "..") →
      resolveComponents base comps = base ++ comps
  | [], base, _ => by simp [resolveComponents]
  | c :: comps, base, h => by
    have hc := h c (List.mem_cons_self c comps)
    rw [resolveComponents]
    rw [if_neg hc.1, if_neg hc.2]
    rw [resolveComponents_clean comps (base ++ [c])
      (fun d hd => h d (List.mem_cons_of_mem _ hd))]
    simp

theorem isPrefixOf_append_self (xs ys : List String) :
    List.isPrefixOf xs (xs ++ ys) = true := by
  induction xs with
  | nil => simp [List.isPrefixOf]
  | cons x xs ih => simp [List.isPrefixOf, ih]

theorem targetFileName_relative (workdir : HostPath) (b : CodeBlock)
    (name : String)
    (hdir : getFileNameDirective b.code = some name)
    (habs : isAbsolute name = false)
    (hclean : ∀ c ∈ splitPath name, c ≠ "." ∧ c ≠ "..") :
    targetFileName workdir b = some (workdir ++ splitPath name) := by
  unfold targetFileName
  rw [hdir]
  simp only [resolvePath, habs, Bool.false_eq_true, if_false]
  rw [resolveComponents_clean _ _ hclean]
  simp [inWorkspace, isPrefixOf_append_self]

theorem execBlocksAux_single_codeFile {p : HostPath}
    (hp : targetFileName workdir b = some p) :
    (execBlocksAux cfg env cancelAt workdir [b] i st).codeFile = some p := by
  by_cases hc : cancelAt = some i
  · rw [execBlocksAux_cons_cancel hp hc]
  · by_cases hd : cfg.timeout < (env i).duration
    · rw [execBlocksAux_cons_timeout hp hc hd]
    · by_cases he : (env i).exitCode = 0
      · rw [execBlocksAux_cons_ok ⟨by simp [hp], hc, Nat.not_lt.mp hd, he⟩]
        rw [execBlocksAux]
        simp [stepSuccess, hp]
      · rw [execBlocksAux_cons_fail hp hc (Nat.not_lt.mp hd) he]
        simp [stepSuccess, hp]

/-- C8: for a block carrying a relative, in-workspace filename directive
(its name free of current- and parent-directory components), the target the
executor writes resolves to exactly workdir ++ the directive's path
components — work_dir slash name — and, executing the single-block batch
under the default keep-temp-files configuration, the returned code_file is
that same path and the file exists in the host file set afterwards,
whatever the container behaviour. -/
theorem execute_relative_filename (ex : DockerCommandLineCodeExecutor)
    (workdir : HostPath) (b : CodeBlock) (env : ContainerEnv)
    (cancelAt : Option Nat) (fs0 : List HostPath) (name : String)
    (hrun : ex.running = true)
    (hdir : getFileNameDirective b.code = some name)
    (habs : isAbsolute name = false)
    (hclean : ∀ c ∈ splitPath name, c ≠ "." ∧ c ≠ "..")
    (hdel : ex.config.delete_tmp_files = false) :
    targetFileName workdir b = some (workdir ++ splitPath name) ∧
    ∃ st, execute_code_blocks ex workdir [b] env cancelAt fs0 =
        Except.ok st ∧
      st.codeFile = some (workdir ++ splitPath name) ∧
      (workdir ++ splitPath name) ∈ st.fs := by
  have htf := targetFileName_relative workdir b name hdir habs hclean
  refine ⟨htf, execBlocksAux ex.config env cancelAt workdir [b] 0
      (initState fs0),
    by simp [execute_code_blocks, hrun], ?_, ?_⟩
  · exact execBlocksAux_single_codeFile htf
  · refine execBlocksAux_codeFile_persists hdel [b] 0 _ ?_ _
      (execBlocksAux_single_codeFile htf)
    intro q hq
    simp [initState] at hq

/-- Witness for C8: the block of test_valid_relative_path, whose directive
names test.py, satisfies every hypothesis; its target is the workspace path
ending in test.py, the returned code_file is that path, and the file exists
afterwards. -/
theorem execute_relative_filename_witness :
    demoExecutor.running = true ∧
    getFileNameDirective relBlock.code = some "test.py" ∧
    isAbsolute "test.py" = false ∧
    demoExecutor.config.delete_tmp_files = false ∧
    targetFileName demoWorkdir relBlock = some (demoWorkdir ++ splitPath "test.py") ∧
    ∃ st, execute_code_blocks demoExecutor demoWorkdir [relBlock] demoEnv
        none [] = Except.ok st ∧
      st.codeFile = some (demoWorkdir ++ splitPath "test.py") ∧
      (demoWorkdir ++ splitPath "test.py") ∈ st.fs := by
  refine ⟨rfl, by decide, by decide, rfl, ?_⟩
  exact execute_relative_filename demoExecutor demoWorkdir relBlock demoEnv
    none [] "test.py" rfl (by decide) (by decide) (by decide) rfl

/-- C10: the executor is reusable across lifecycle cycles: from a freshly
loaded executor the running flag is false, start sets it, stop clears it,
a second start sets it again, a batch of normally-running blocks then
executes with exit code 0, and a second stop clears the flag — the stopped
state is not terminal. -/
theorem executor_restart_cycle (c : DockerCommandLineCodeExecutorConfig)
    (workdir : HostPath) (blocks : List CodeBlock) (env : ContainerEnv)
    (fs0 : List HostPath)
    (hval : 1 ≤ c.timeout) (hne : blocks ≠ [])
    (hok : PrefixOk c env none workdir blocks 0) :
    ∃ e, DockerCommandLineCodeExecutor.from_config c = Except.ok e ∧
      e.running = false ∧
      e.start.running = true ∧
      e.start.stop.running = false ∧
      e.start.stop.start.running = true ∧
      (∃ st, execute_code_blocks e.start.stop.start workdir blocks env none
          fs0 = Except.ok st ∧ st.exit = 0) ∧
      e.start.stop.start.stop.running = false := by
  refine ⟨{ config := c, running := false },
    by simp [DockerCommandLineCodeExecutor.from_config, Nat.not_lt.mpr hval],
    rfl, rfl, rfl, rfl, ?_, rfl⟩
  refine ⟨execBlocksAux c env none workdir blocks 0 (initState fs0),
    by simp [execute_code_blocks, hne, DockerCommandLineCodeExecutor.start,
      DockerCommandLineCodeExecutor.stop], ?_⟩
  rw [execBlocksAux_all_ok blocks 0 _ hok]
  exact foldSuccess_exit blocks 0 _ hok hne

/-- Witness for C10: the demo configuration and the single hello block
satisfy every hypothesis; the full start, stop, start, execute, stop cycle
goes through with the stated flag values and exit code 0. -/
theorem executor_restart_cycle_witness :
    1 ≤ demoConfig.timeout ∧
    PrefixOk demoConfig demoEnv none demoWorkdir [helloBlock] 0 ∧
    ∃ e, DockerCommandLineCodeExecutor.from_config demoConfig = Except.ok e ∧
      e.running = false ∧
      e.start.stop.running = false ∧
      e.start.stop.start.running = true ∧
      (∃ st, execute_code_blocks e.start.stop.start demoWorkdir [helloBlock]
          demoEnv none [] = Except.ok st ∧ st.exit = 0) ∧
      e.start.stop.start.stop.running = false := by
  refine ⟨by decide, by decide, ?_⟩
  obtain ⟨e, h1, h2, _, h4, h5, h6, h7⟩ :=
    executor_restart_cycle demoConfig demoWorkdir [helloBlock] demoEnv []
      (by decide) (by decide) (by decide)
  exact ⟨e, h1, h2, h4, h5, h6, h7⟩

end Claims

end Autogen
